import Mathlib

/-
Verification of the course-scheduling pipeline in src/scheduling/main.py.

The source builds a PuLP 0/1 integer program from course, lecturer and
student-request records, solves it with CBC, and decodes the resulting
variable assignment into schedules and fulfillment statistics.  This file
is a shallow embedding of that code:

* Python strings are `List Char` (abbreviated `Str`); `str.split('_')` is
  `List.splitOn '_'`, `'_'.join` is `['_'].intercalate`.
* Pandas dataframes become lists of records; `.unique()` and Python `dict`
  key sets become `pyUnique` (first-occurrence deduplication); dict lookup
  and insertion-ordered dicts become association lists.
* The PuLP model is a structure holding a linear objective and a list of
  named linear constraints.  Every constraint of the source has integer
  coefficients, so constraint sides are `List (Int × VarKey)`; the
  objective carries rational coefficients because of the -0.01 penalty.
* Solver-returned variable values are rationals; fallible Python code
  (`int(...)`, a bare `list[1]` index, division) returns `Option`.

Records are taken after the normalisation done by preprocess_data
(course codes already lower-cased, the priority tier already one of the
three tags of the data model).
-/

/-- Python strings, modelled as their character lists. -/
abbrev Str := List Char

/-- First-occurrence deduplication: `pandas.unique` and the key order of a
Python dict built by repeated insertion. -/
def pyUnique {α : Type} [DecidableEq α] (l : List α) : List α :=
  l.foldl (fun acc a => if a ∈ acc then acc else acc ++ [a]) []

/-- Lookup in an insertion-ordered dict modelled as an association list. -/
def dictGet {β : Type} (d : List (Str × β)) (k : Str) : Option β :=
  (d.find? (fun kv => kv.1 = k)).map (·.2)

/-- `d.setdefault(k, []).append(x)` on an insertion-ordered dict of lists:
append to the existing entry, or add a new key at the end. -/
def dictAppend {β : Type} : List (Str × List β) → Str → β → List (Str × List β)
  | [], k, x => [(k, [x])]
  | (k0, l) :: rest, k, x =>
    if k0 = k then (k0, l ++ [x]) :: rest else (k0, l) :: dictAppend rest k x

/-- Python `int(s)` on the tokens the source feeds it (decimal digit strings);
`none` models the `ValueError` raised on anything else. -/
def pyNat (s : Str) : Option Nat :=
  if s ≠ [] ∧ s.all (·.isDigit) then
    some (s.foldl (fun n c => 10 * n + (c.toNat - 48)) 0)
  else none

/-- Python `str(n)` for the nonnegative integers used as ids. -/
def natStr (n : Nat) : Str := (Nat.repr n).data

/-- Lexicographic comparison of Python strings by code point. -/
def strLe : Str → Str → Bool
  | [], _ => true
  | _ :: _, [] => false
  | a :: as, b :: bs => if a = b then strLe as bs else decide (a < b)

/-- Insert into a sorted list (helper for `pySorted`). -/
def insertSorted (x : Str) : List Str → List Str
  | [] => [x]
  | y :: ys => if strLe x y then x :: y :: ys else y :: insertSorted x ys

/-- Python `sorted` on a list of strings. -/
def pySorted (l : List Str) : List Str := l.foldr insertSorted []

/-- One record of the course list, with the fields the model builder and the
extractor read (codes already lower-cased by preprocess_data). -/
structure CourseRec where
  code : Str
  title : Str
  availableBlocks : List Str
  minSize : Int
  maxSize : Int
deriving DecidableEq

/-- One lecturer-assignment record: course code, section number, professor id. -/
structure LecturerRec where
  code : Str
  sectionNumber : Nat
  profId : Str
deriving DecidableEq

/-- The priority tier of a student request (data model: exactly these three). -/
inductive ReqType
  | required
  | requested
  | recommended
deriving DecidableEq

/-- One student-request record. -/
structure RequestRec where
  studentId : Nat
  code : Str
  title : Str
  rtype : ReqType
deriving DecidableEq

/-- The three normalised inputs of build_optimization_model. -/
structure SchedInput where
  courses : List CourseRec
  lecturers : List LecturerRec
  requests : List RequestRec

/-- priority_map: Required→3, Requested→2, Recommended→1. -/
def priorityOf : ReqType → ℚ
  | .required => 3
  | .requested => 2
  | .recommended => 1

/-- Section_ID = course code + "_" + str(section number). -/
def sectionIdOf (l : LecturerRec) : Str := l.code ++ '_' :: natStr l.sectionNumber

/-- all_blocks: union of the per-course available-block lists. -/
def allBlocks (inp : SchedInput) : List Str :=
  pyUnique (inp.courses.flatMap (·.availableBlocks))

/-- students = requests_df["Student ID"].unique(). -/
def students (inp : SchedInput) : List Nat :=
  pyUnique (inp.requests.map (·.studentId))

/-- course_sections = lecturers_df["Section_ID"].unique(). -/
def courseSections (inp : SchedInput) : List Str :=
  pyUnique (inp.lecturers.map sectionIdOf)

/-- professors = lecturers_df["Prof ID"].unique(). -/
def professors (inp : SchedInput) : List Str :=
  pyUnique (inp.lecturers.map (·.profId))

/-- course_to_blocks: one entry per course row, later rows overwriting
earlier ones, so the lookup finds the last matching row. -/
def courseToBlocks (inp : SchedInput) (c : Str) : Option (List Str) :=
  (inp.courses.reverse.find? (fun r => r.code = c)).map (·.availableBlocks)

/-- The available-block set of a course code (empty for an unknown code). -/
def availOf (inp : SchedInput) (c : Str) : List Str := (courseToBlocks inp c).getD []

/-- student in student_course_requests. -/
def hasAnyRequest (inp : SchedInput) (s : Nat) : Bool := inp.requests.any (·.studentId = s)

/-- course_code in student_course_requests[student]. -/
def requested (inp : SchedInput) (s : Nat) (c : Str) : Bool :=
  inp.requests.any (fun r => r.studentId = s ∧ r.code = c)

/-- request_priorities[(student, course)]: the dict is filled row by row, so a
duplicate (student, course) pair keeps the last row's priority. -/
def reqPriority (inp : SchedInput) (s : Nat) (c : Str) : Option ℚ :=
  (inp.requests.reverse.find? (fun r => r.studentId = s ∧ r.code = c)).map
    (fun r => priorityOf r.rtype)

/-- course_to_lecturers[section]: professor ids of the lecturer rows whose
Section_ID is the given section, in row order. -/
def sectionProfs (inp : SchedInput) (sec : Str) : List Str :=
  (inp.lecturers.filter (fun l => sectionIdOf l = sec)).map (·.profId)

/-- section.split('_')[0]: how the builder recovers a course code from a
section identifier. -/
def firstTok (s : Str) : Str := (s.splitOn '_').headD []

/-- The decision variables of the model, keyed the way the source keys its
x, y, section_used and diff dicts. -/
inductive VarKey
  | x (student : Nat) (sec blk : Str)
  | y (prof sec blk : Str)
  | used (sec blk : Str)
  | diff (sec1 sec2 blk : Str)
deriving DecidableEq

/-- The (student, section, block) triples for which the x-variable creation
loop (main.py lines 126-138) executes, in loop order. -/
def xKeysRaw (inp : SchedInput) : List (Nat × Str × Str) :=
  (students inp).flatMap fun s =>
    if hasAnyRequest inp s then
      (courseSections inp).flatMap fun sec =>
        if requested inp s (firstTok sec) ∧ (courseToBlocks inp (firstTok sec)).isSome then
          (availOf inp (firstTok sec)).map fun b => (s, sec, b)
        else []
    else []

/-- Keys of the x dict (unique, first-insertion order). -/
def xKeys (inp : SchedInput) : List (Nat × Str × Str) := pyUnique (xKeysRaw inp)

/-- The (prof, section, block) triples of the y-variable creation loop
(lines 141-152), in loop order. -/
def yKeysRaw (inp : SchedInput) : List (Str × Str × Str) :=
  (courseSections inp).flatMap fun sec =>
    if (courseToBlocks inp (firstTok sec)).isSome then
      (availOf inp (firstTok sec)).flatMap fun b =>
        (professors inp).filterMap fun p =>
          if sectionProfs inp sec ≠ [] ∧ p ∈ sectionProfs inp sec then
            some (p, sec, b)
          else none
    else []

/-- Keys of the y dict. -/
def yKeys (inp : SchedInput) : List (Str × Str × Str) := pyUnique (yKeysRaw inp)

/-- The (section, block) pairs of the section_used creation loop (lines 155-163). -/
def usedKeysRaw (inp : SchedInput) : List (Str × Str) :=
  (courseSections inp).flatMap fun sec =>
    if (courseToBlocks inp (firstTok sec)).isSome then
      (availOf inp (firstTok sec)).map fun b => (sec, b)
    else []

/-- Keys of the section_used dict. -/
def usedKeys (inp : SchedInput) : List (Str × Str) := pyUnique (usedKeysRaw inp)

/-- A linear expression with rational coefficients (the objective). -/
abbrev QLin := List (ℚ × VarKey)

/-- A linear expression with integer coefficients (constraint sides: every
constraint of the source has integer coefficients). -/
abbrev ILin := List (Int × VarKey)

/-- Comparison operator of a linear constraint. -/
inductive COp
  | le
  | ge
  | eqc
deriving DecidableEq

/-- A named linear constraint `terms ⋈ bound`. -/
structure LinCon where
  name : Str
  terms : ILin
  op : COp
  bound : Int
deriving DecidableEq

/-- Value of an integer linear expression under a valuation. -/
def evalI (e : ILin) (v : VarKey → Int) : Int := (e.map fun ck => ck.1 * v ck.2).sum

/-- Value of a rational linear expression under a valuation. -/
def evalQ (e : QLin) (v : VarKey → ℚ) : ℚ := (e.map fun ck => ck.1 * v ck.2).sum

/-- Whether a valuation meets one constraint. -/
def conHolds (v : VarKey → Int) (c : LinCon) : Bool :=
  match c.op with
  | .le => evalI c.terms v ≤ c.bound
  | .ge => c.bound ≤ evalI c.terms v
  | .eqc => evalI c.terms v = c.bound

/-- Whether a valuation meets every constraint of a list. -/
def satisfies (v : VarKey → Int) (cs : List LinCon) : Bool := cs.all (conHolds v)

/-- The shape of a solution: x, y and section_used variables are binary
(cat=pl.LpBinary), while the diff variables are continuous with lowBound=0,
so only nonnegative (they may exceed 1 when section sizes differ). -/
def binaryOn (v : VarKey → Int) : Prop :=
  ∀ k, match k with
  | VarKey.diff _ _ _ => 0 ≤ v k
  | _ => v k = 0 ∨ v k = 1

/-- The section-size expression: lpSum of x over students, for one
(section, block), as in lines 220-224. -/
def enrollTerms (inp : SchedInput) (sec blk : Str) : ILin :=
  ((students inp).filter (fun s => decide ((s, sec, blk) ∈ xKeys inp))).map
    (fun s => ((1 : Int), VarKey.x s sec blk))

/-- lpSum of y over professors for one (section, block), as in lines 233-237. -/
def profTerms (inp : SchedInput) (sec blk : Str) : ILin :=
  ((professors inp).filter (fun p => decide ((p, sec, blk) ∈ yKeys inp))).map
    (fun p => ((1 : Int), VarKey.y p sec blk))

/-- Constraint 1 (lines 188-194): one course per student per block. -/
def studentExclCon (inp : SchedInput) (s : Nat) (b : Str) : LinCon :=
  { name := "student_".data ++ natStr s ++ "_one_course_block_".data ++ b
    terms := ((courseSections inp).filter (fun sec => decide ((s, sec, b) ∈ xKeys inp))).map
      (fun sec => ((1 : Int), VarKey.x s sec b))
    op := .le
    bound := 1 }

/-- All student-exclusivity constraints, in loop order. -/
def studentExclCons (inp : SchedInput) : List LinCon :=
  (students inp).flatMap fun s => (allBlocks inp).map fun b => studentExclCon inp s b

/-- Constraint 2 (lines 197-203): one section per professor per block. -/
def profExclCon (inp : SchedInput) (p : Str) (b : Str) : LinCon :=
  { name := "prof_".data ++ p ++ "_one_section_block_".data ++ b
    terms := ((courseSections inp).filter (fun sec => decide ((p, sec, b) ∈ yKeys inp))).map
      (fun sec => ((1 : Int), VarKey.y p sec b))
    op := .le
    bound := 1 }

/-- All professor-exclusivity constraints. -/
def profExclCons (inp : SchedInput) : List LinCon :=
  (professors inp).flatMap fun p => (allBlocks inp).map fun b => profExclCon inp p b

/-- min_size constraint: section_size ≥ min_size · used, written as
section_size − min_size · used ≥ 0. -/
def minCon (inp : SchedInput) (sec b : Str) (cr : CourseRec) : LinCon :=
  { name := "min_size_".data ++ sec ++ '_' :: b
    terms := enrollTerms inp sec b ++ [(-cr.minSize, VarKey.used sec b)]
    op := .ge
    bound := 0 }

/-- max_size constraint: section_size ≤ max_size · used. -/
def maxCon (inp : SchedInput) (sec b : Str) (cr : CourseRec) : LinCon :=
  { name := "max_size_".data ++ sec ++ '_' :: b
    terms := enrollTerms inp sec b ++ [(-cr.maxSize, VarKey.used sec b)]
    op := .le
    bound := 0 }

/-- one_prof constraint: lpSum y = used. -/
def oneProfCon (inp : SchedInput) (sec b : Str) : LinCon :=
  { name := "one_prof_".data ++ sec ++ '_' :: b
    terms := profTerms inp sec b ++ [((-1 : Int), VarKey.used sec b)]
    op := .eqc
    bound := 0 }

/-- Constraint 3 (lines 206-237) for one section: size bounds linked to the
usage indicator, plus the single-professor equation.  The course row is the
first one matching section.split('_')[0] (pandas .values[0]). -/
def sizeConsFor (inp : SchedInput) (sec : Str) : List LinCon :=
  match courseToBlocks inp (firstTok sec) with
  | none => []
  | some bs =>
    bs.flatMap fun b =>
      if (sec, b) ∈ usedKeys inp then
        match inp.courses.find? (fun r => r.code = firstTok sec) with
        | none => []
        | some cr => [minCon inp sec b cr, maxCon inp sec b cr, oneProfCon inp sec b]
      else []

/-- All size/usage constraints, in loop order. -/
def sizeCons (inp : SchedInput) : List LinCon :=
  (courseSections inp).flatMap (sizeConsFor inp)

/-- Sections whose Section_ID starts (before the first underscore) with the
given course code, as in line 245. -/
def relevantSections (inp : SchedInput) (c : Str) : List Str :=
  (courseSections inp).filter (fun sec => firstTok sec = c)

/-- The sum of the constraint for one Required request (lines 249-253). -/
def requiredConTerms (inp : SchedInput) (s : Nat) (c : Str) : ILin :=
  (relevantSections inp c).flatMap fun sec =>
    ((courseToBlocks inp c).getD []).filterMap fun b =>
      if (s, sec, b) ∈ xKeys inp then some ((1 : Int), VarKey.x s sec b) else none

/-- Constraint 4: a Required request must be fulfilled. -/
def requiredCon (inp : SchedInput) (s : Nat) (c : Str) : LinCon :=
  { name := "required_".data ++ natStr s ++ '_' :: c
    terms := requiredConTerms inp s c
    op := .ge
    bound := 1 }

/-- All mandatory-coverage constraints: one per Required request row, but
only when the course has at least one section (line 248 skips otherwise). -/
def requiredCons (inp : SchedInput) : List LinCon :=
  (inp.requests.filter (fun r => r.rtype = ReqType.required)).filterMap fun r =>
    if relevantSections inp r.code ≠ [] then some (requiredCon inp r.studentId r.code)
    else none

/-- Ordered pairs (list[i], list[j]) with i < j, as produced by the
enumerate/slice loops of lines 264-265. -/
def orderedPairs {α : Type} : List α → List (α × α)
  | [] => []
  | a :: rest => rest.map (fun b => (a, b)) ++ orderedPairs rest

/-- The (section1, section2, block) triples of the balance loop (lines
257-267), in our fixed iteration order for the Python set of course codes
(Python's own set order is unspecified). -/
def balancePairs (inp : SchedInput) : List (Str × Str × Str) :=
  (pyUnique ((courseSections inp).map firstTok)).flatMap fun c =>
    if 1 < (relevantSections inp c).length ∧ (courseToBlocks inp c).isSome then
      (availOf inp c).flatMap fun b =>
        (orderedPairs (relevantSections inp c)).filterMap fun p =>
          if (p.1, b) ∈ usedKeys inp ∧ (p.2, b) ∈ usedKeys inp then some (p.1, p.2, b)
          else none
    else []

/-- Negate an integer linear expression. -/
def negTerms (e : ILin) : ILin := e.map fun ck => (-ck.1, ck.2)

/-- diff ≥ size1 − size2, written diff − size1 + size2 ≥ 0. -/
def diff1Con (inp : SchedInput) (s1 s2 b : Str) : LinCon :=
  { name := "diff1_".data ++ s1 ++ '_' :: s2 ++ '_' :: b
    terms := ((1 : Int), VarKey.diff s1 s2 b) ::
      (negTerms (enrollTerms inp s1 b) ++ enrollTerms inp s2 b)
    op := .ge
    bound := 0 }

/-- diff ≥ size2 − size1, written diff − size2 + size1 ≥ 0. -/
def diff2Con (inp : SchedInput) (s1 s2 b : Str) : LinCon :=
  { name := "diff2_".data ++ s1 ++ '_' :: s2 ++ '_' :: b
    terms := ((1 : Int), VarKey.diff s1 s2 b) ::
      (negTerms (enrollTerms inp s2 b) ++ enrollTerms inp s1 b)
    op := .ge
    bound := 0 }

/-- The PuLP problem: a single objective expression and the constraint list. -/
structure LpModel where
  objective : QLin
  constraints : List LinCon
deriving DecidableEq

/-- The -0.01 penalty weight of line 288. -/
def penaltyCoeff : ℚ := -(1 / 100)

/-- The expression -0.01 · diff added to the problem at line 288. -/
def penaltyExpr (s1 s2 b : Str) : QLin := [(penaltyCoeff, VarKey.diff s1 s2 b)]

/-- The objective expression of lines 170-181: for every created x variable
whose (student, course) pair is in request_priorities, the priority-weighted
variable. -/
def objectiveX (inp : SchedInput) : QLin :=
  (xKeys inp).filterMap fun k =>
    (reqPriority inp k.1 (firstTok k.2.1)).map fun p => (p, VarKey.x k.1 k.2.1 k.2.2)

/-- PuLP LpProblem.__iadd__ with a bare affine expression: it SETS the
problem's objective, replacing any previously set one (PuLP warns
"Overwriting previously set objective.").  This is what both line 181 and
line 288 (`model += -0.01 * diff`) do. -/
def setObjective (m : LpModel) (e : QLin) : LpModel := { m with objective := e }

/-- PuLP LpProblem.__iadd__ with a constraint: append it. -/
def addCon (m : LpModel) (c : LinCon) : LpModel :=
  { m with constraints := m.constraints ++ [c] }

/-- One iteration of the balance loop body (lines 283-288): add the two diff
constraints, then `model += -0.01 * diff`, which overwrites the objective. -/
def balanceStep (inp : SchedInput) (m : LpModel) (p : Str × Str × Str) : LpModel :=
  setObjective (addCon (addCon m (diff1Con inp p.1 p.2.1 p.2.2)) (diff2Con inp p.1 p.2.1 p.2.2))
    (penaltyExpr p.1 p.2.1 p.2.2)

/-- build_optimization_model (lines 72-290), in statement order. -/
def buildModel (inp : SchedInput) : LpModel :=
  let m0 : LpModel := { objective := [], constraints := [] }
  let m1 := setObjective m0 (objectiveX inp)
  let m2 := (studentExclCons inp).foldl addCon m1
  let m3 := (profExclCons inp).foldl addCon m2
  let m4 := (sizeCons inp).foldl addCon m3
  let m5 := (requiredCons inp).foldl addCon m4
  (balancePairs inp).foldl (balanceStep inp) m5

/-- The objective the SPECIFICATION describes (modelled from the spec's
words, for comparison with the built model): the priority-weighted sum over
all created x variables, minus 0.01 times the sum of the imbalance
variables. -/
def specObjective (inp : SchedInput) : QLin :=
  objectiveX inp ++ (balancePairs inp).map fun p => (penaltyCoeff, VarKey.diff p.1 p.2.1 p.2.2)

/-- Name-level decoding shared by the two extraction loops (lines 325-329
for x_, 384-389 for y_): split on underscores; token 1 is the entity id,
the last token the block, the middle tokens re-joined with underscores the
section identifier; fewer than 4 tokens means the variable is skipped. -/
def decodeTriple (name : Str) : Option (Str × Str × Str) :=
  let parts := name.splitOn '_'
  if 4 ≤ parts.length then
    some (parts.getD 1 [], ['_'].intercalate ((parts.drop 2).dropLast), parts.getLastD [])
  else none

/-- One decoded row of a student schedule (the dict of lines 371-378). -/
structure SEntry where
  student : Str
  code : Str
  title : Str
  sectionNum : Str
  blk : Str
  profId : Str
deriving DecidableEq

/-- Course-title lookup of lines 342-345 (first matching row, with the
"Unknown Course" fallback). -/
def courseTitle (courses : List CourseRec) (c : Str) : Str :=
  ((courses.find? (fun r => r.code = c)).map (·.title)).getD "Unknown Course".data

/-- Professor lookup of lines 347-368: parse the section number (a failed
parse is caught and yields "Unknown"), then take the first matching
lecturer row; an empty section number falls back to a course-only query. -/
def profLookup (lects : List LecturerRec) (c : Str) (numStr : Str) : Str :=
  if numStr ≠ [] then
    match pyNat numStr with
    | none => "Unknown".data
    | some n =>
      match lects.find? (fun l => l.code = c ∧ l.sectionNumber = n) with
      | some l => l.profId
      | none => "Unknown".data
  else
    match lects.find? (fun l => l.code = c) with
    | some l => l.profId
    | none => "Unknown".data

/-- One iteration of the student-schedule extraction loop (lines 320-378):
only x_ variables whose solved value is EXACTLY 1 are taken. -/
def xStep (courses : List CourseRec) (lects : List LecturerRec)
    (sched : List (Str × List SEntry)) (nv : Str × ℚ) : List (Str × List SEntry) :=
  if List.isPrefixOf "x_".data nv.1 ∧ nv.2 = 1 then
    match decodeTriple nv.1 with
    | none => sched
    | some (student, sec, b) =>
      if 2 ≤ (sec.splitOn '_').length then
        dictAppend sched student
          { student := student
            code := ['_'].intercalate (sec.splitOn '_').dropLast
            title := courseTitle courses (['_'].intercalate (sec.splitOn '_').dropLast)
            sectionNum := (sec.splitOn '_').getLastD []
            blk := b
            profId := profLookup lects (['_'].intercalate (sec.splitOn '_').dropLast)
              ((sec.splitOn '_').getLastD []) }
      else sched
  else sched

/-- The student-schedule dict built from the solved variables. -/
def extractStudentSchedules (vars : List (Str × ℚ)) (courses : List CourseRec)
    (lects : List LecturerRec) : List (Str × List SEntry) :=
  vars.foldl (xStep courses lects) []

/-- One decoded row of a professor schedule (lines 403-409). -/
structure PEntry where
  prof : Str
  code : Str
  title : Str
  sectionNum : Str
  blk : Str
deriving DecidableEq

/-- One iteration of the professor-schedule extraction loop (lines 382-409):
y_ variables with value STRICTLY greater than 0.9 are taken; the course code
is section.split('_')[0] and the section number section.split('_')[1] — the
latter raises IndexError (none) when the section has no underscore. -/
def yStep (courses : List CourseRec) (sched : List (Str × List PEntry)) (nv : Str × ℚ) :
    Option (List (Str × List PEntry)) :=
  if List.isPrefixOf "y_".data nv.1 ∧ (9 : ℚ) / 10 < nv.2 then
    match decodeTriple nv.1 with
    | none => some sched
    | some (prof, sec, b) =>
      match (sec.splitOn '_').get? 1 with
      | none => none
      | some n =>
        some (dictAppend sched prof
          { prof := prof
            code := (sec.splitOn '_').headD []
            title := ((courses.find? (fun r => r.code = (sec.splitOn '_').headD [])).map
              (·.title)).getD "Unknown".data
            sectionNum := n
            blk := b })
  else some sched

/-- The professor-schedule dict; `none` models the uncaught IndexError. -/
def extractProfSchedules (vars : List (Str × ℚ)) (courses : List CourseRec) :
    Option (List (Str × List PEntry)) :=
  vars.foldlM (yStep courses) []

/-- Number of requests of one priority tier (lines 417-419). -/
def tierCount (requests : List RequestRec) (t : ReqType) : Nat :=
  (requests.filter (fun r => r.rtype = t)).length

/-- Inner loop of lines 428-435: bump the per-tier fulfilled counter when the
request's course is among the student's scheduled courses. -/
def bumpFulfilled (codes : List Str) (acc : Nat × Nat × Nat) (r : RequestRec) :
    Nat × Nat × Nat :=
  if r.code ∈ codes then
    match r.rtype with
    | .required => (acc.1 + 1, acc.2.1, acc.2.2)
    | .requested => (acc.1, acc.2.1 + 1, acc.2.2)
    | .recommended => (acc.1, acc.2.1, acc.2.2 + 1)
  else acc

/-- One student of the fulfilled-count loop (lines 422-435); int(student)
raises (none) on a non-numeric key. -/
def fulfilledStep (requests : List RequestRec) (acc : Nat × Nat × Nat)
    (kv : Str × List SEntry) : Option (Nat × Nat × Nat) :=
  match pyNat kv.1 with
  | none => none
  | some sid =>
    some ((requests.filter (fun r => r.studentId = sid)).foldl
      (bumpFulfilled (kv.2.map (·.code))) acc)

/-- fulfilled_required, fulfilled_requested, fulfilled_recommended. -/
def computeFulfilled (schedules : List (Str × List SEntry)) (requests : List RequestRec) :
    Option (Nat × Nat × Nat) :=
  schedules.foldlM (fulfilledStep requests) (0, 0, 0)

/-- Python division: ZeroDivisionError becomes none. -/
def pydiv (a b : ℚ) : Option ℚ := if b = 0 then none else some (a / b)

/-- The stats_data table of lines 470-483: totals, fulfilled, unfulfilled and
percentage rates, each as (Required, Requested, Recommended, Total). -/
structure FulfillStats where
  totals : Nat × Nat × Nat × Nat
  fulfilled : Nat × Nat × Nat × Nat
  unfulfilled : Int × Int × Int × Int
  rates : ℚ × ℚ × ℚ × ℚ
deriving DecidableEq

/-- Lines 411-483: the fulfillment-statistics computation.  The three
per-tier rates divide by max(1, total); the Total row divides by the raw
total_requests, which raises ZeroDivisionError (none) when there are no
requests. -/
def computeStats (schedules : List (Str × List SEntry)) (requests : List RequestRec) :
    Option FulfillStats :=
  match computeFulfilled schedules requests with
  | none => none
  | some f =>
    match pydiv ((f.1 + f.2.1 + f.2.2 : Nat) : ℚ) ((requests.length : Nat) : ℚ) with
    | none => none
    | some rT =>
      some
        { totals := (tierCount requests .required, tierCount requests .requested,
            tierCount requests .recommended, requests.length)
          fulfilled := (f.1, f.2.1, f.2.2, f.1 + f.2.1 + f.2.2)
          unfulfilled := ((tierCount requests .required : Int) - f.1,
            (tierCount requests .requested : Int) - f.2.1,
            (tierCount requests .recommended : Int) - f.2.2,
            (requests.length : Int) - (f.1 + f.2.1 + f.2.2))
          rates := ((f.1 : ℚ) / (max 1 (tierCount requests .required) : Nat) * 100,
            (f.2.1 : ℚ) / (max 1 (tierCount requests .requested) : Nat) * 100,
            (f.2.2 : ℚ) / (max 1 (tierCount requests .recommended) : Nat) * 100,
            rT * 100) }

/-- One row of the unfulfilled-required report (lines 492-511). -/
structure UnmetEntry where
  studentId : Nat
  code : Str
  title : Str
deriving DecidableEq

/-- Lines 496-511 for one Required request: it is reported when the student
key str(student_id) is absent from the schedules, or present without this
course. -/
def unmetStep (schedules : List (Str × List SEntry)) (r : RequestRec) : Option UnmetEntry :=
  match dictGet schedules (natStr r.studentId) with
  | some es =>
    if r.code ∈ es.map (·.code) then none
    else some { studentId := r.studentId, code := r.code, title := r.title }
  | none => some { studentId := r.studentId, code := r.code, title := r.title }

/-- unfulfilled_required_requests: one pass over the Required request rows. -/
def unfulfilledRequired (schedules : List (Str × List SEntry))
    (requests : List RequestRec) : List UnmetEntry :=
  (requests.filter (fun r => r.rtype = ReqType.required)).filterMap (unmetStep schedules)

/-- The student's decoded schedule contains the course (lines 497-498). -/
def containsCourse (schedules : List (Str × List SEntry)) (sid : Nat) (c : Str) : Prop :=
  ∃ es, dictGet schedules (natStr sid) = some es ∧ c ∈ es.map (·.code)

/-- The cell of one entity row at one block (lines 574-578): the row dict is
initialised to "---" for every known block and then overwritten by each
course entry in order, so the cell holds the last entry at that block. -/
def cellOf {E : Type} (blockOf infoOf : E → Str) (es : List E) (b : Str) : Str :=
  match es.reverse.find? (fun e => decide (blockOf e = b)) with
  | some e => infoOf e
  | none => "---".data

/-- generate_block_schedules (lines 566-598) for one kind of entity: after
reindexing to the sorted block universe, every row has one cell per known
block. -/
def blockGrid {E : Type} (blockOf infoOf : E → Str)
    (schedules : List (Str × List E)) (blocks : List Str) : List (Str × List (Str × Str)) :=
  schedules.map fun kv => (kv.1, (pySorted blocks).map fun b => (b, cellOf blockOf infoOf kv.2 b))

/-- f"{course code} (Sec {section})" for a student entry. -/
def sEntryInfo (e : SEntry) : Str := e.code ++ " (Sec ".data ++ e.sectionNum ++ ")".data

/-- f"{course code} (Sec {section})" for a professor entry. -/
def pEntryInfo (e : PEntry) : Str := e.code ++ " (Sec ".data ++ e.sectionNum ++ ")".data

/-- The student block-schedule table. -/
def studentBlockSchedules (schedules : List (Str × List SEntry)) (blocks : List Str) :
    List (Str × List (Str × Str)) :=
  blockGrid SEntry.blk sEntryInfo schedules blocks

/-- The professor block-schedule table. -/
def professorBlockSchedules (schedules : List (Str × List PEntry)) (blocks : List Str) :
    List (Str × List (Str × Str)) :=
  blockGrid PEntry.blk pEntryInfo schedules blocks

/-- Compact constructor for a concrete course record. -/
def mkCourse (c t : String) (bs : List String) (mn mx : Int) : CourseRec :=
  ⟨c.data, t.data, bs.map (·.data), mn, mx⟩

/-- Compact constructor for a concrete lecturer record. -/
def mkLect (c : String) (n : Nat) (p : String) : LecturerRec := ⟨c.data, n, p.data⟩

/-- Compact constructor for a concrete request record. -/
def mkReq (s : Nat) (c t : String) (r : ReqType) : RequestRec := ⟨s, c.data, t.data, r⟩

/-- Compact constructor for a concrete student-schedule entry. -/
def mkSEntry (s c t n b p : String) : SEntry := ⟨s.data, c.data, t.data, n.data, b.data, p.data⟩

/-- The two constraints contributed by one balance pair. -/
def balanceConsFor (inp : SchedInput) (p : Str × Str × Str) : List LinCon :=
  [diff1Con inp p.1 p.2.1 p.2.2, diff2Con inp p.1 p.2.1 p.2.2]

/-- All balance constraints, in loop order. -/
def balanceCons (inp : SchedInput) : List LinCon :=
  (balancePairs inp).flatMap (balanceConsFor inp)

/-- Counterexample input for C2: the course code "ai_ml" contains an
underscore, the student requests it, the block is available and a
professor teaches its only section. -/
def c2inp : SchedInput where
  courses := [mkCourse "ai_ml" "AIML" ["1A"] 0 10]
  lecturers := [mkLect "ai_ml" 1 "p1"]
  requests := [mkReq 7 "ai_ml" "AIML" ReqType.required]

/-- Witness input for C2: same shape without the underscore. -/
def c2winp : SchedInput where
  courses := [mkCourse "ai" "AI" ["1A"] 0 10]
  lecturers := [mkLect "ai" 1 "p1"]
  requests := [mkReq 7 "ai" "AI" ReqType.required]

/-- Witness input for C6. -/
def c6winp : SchedInput where
  courses := [mkCourse "ai" "AI" ["1A"] 0 10]
  lecturers := [mkLect "ai" 1 "p1", mkLect "ai" 2 "p2"]
  requests := [mkReq 7 "ai" "AI" ReqType.required]

/-- Counterexample input for C4: one Required request for course "phys",
which has no lecturer rows and hence no sections. -/
def c4inp : SchedInput where
  courses := [mkCourse "phys" "PH" ["1A"] 0 10]
  lecturers := []
  requests := [mkReq 7 "phys" "PH" ReqType.required]

/-- Witness input for C4: the same request with the course taught. -/
def c4winp : SchedInput where
  courses := [mkCourse "phys" "PH" ["1A"] 0 10]
  lecturers := [mkLect "phys" 1 "p1"]
  requests := [mkReq 7 "phys" "PH" ReqType.required]

/-- Counterexample input for C7: section "ai_ml_1" belongs to course
"ai_ml" (min 5, max 10), but its first underscore token "ai" names another
course (min 0, max 3), whose bounds and blocks the builder uses. -/
def c7inp : SchedInput where
  courses := [mkCourse "ai" "AI" ["1A"] 0 3, mkCourse "ai_ml" "AIML" ["1B"] 5 10]
  lecturers := [mkLect "ai_ml" 1 "p1"]
  requests := [mkReq 7 "ai" "AI" ReqType.required]

/-- A binary solution of the c7inp model: student 7 enrolled in section
"ai_ml_1" at block "1A", professor p1 teaching it, the section used. -/
def v7 : VarKey → Int := fun k =>
  if k = VarKey.x 7 "ai_ml_1".data "1A".data ∨ k = VarKey.used "ai_ml_1".data "1A".data ∨
      k = VarKey.y "p1".data "ai_ml_1".data "1A".data then 1 else 0

/-- Witness input for C7. -/
def c7winp : SchedInput where
  courses := [mkCourse "ai" "AI" ["1A"] 2 3]
  lecturers := [mkLect "ai" 1 "p1"]
  requests := [mkReq 7 "ai" "AI" ReqType.required]

/-- Input for C1: one course with two sections offered in one shared block,
so the balance loop of lines 257-288 runs for exactly one section pair; one
Required request makes the priority-weighted sum nonzero. -/
def c1inp : SchedInput where
  courses := [mkCourse "ai" "AI" ["1A"] 0 10]
  lecturers := [mkLect "ai" 1 "p1", mkLect "ai" 2 "p2"]
  requests := [mkReq 7 "ai" "AI" ReqType.required]

/-- A valuation enrolling student 7 in section ai_1 with zero imbalance. -/
def c1val : VarKey → ℚ := fun k => if k = VarKey.x 7 "ai_1".data "1A".data then 1 else 0

theorem pyUnique_foldl_mem {α : Type} [DecidableEq α] (l acc : List α) (a : α) :
    a ∈ l.foldl (fun acc x => if x ∈ acc then acc else acc ++ [x]) acc ↔ a ∈ acc ∨ a ∈ l := by
  induction l generalizing acc with
  | nil => simp
  | cons x t ih =>
    simp only [List.foldl_cons]
    by_cases hx : x ∈ acc
    · rw [if_pos hx, ih]
      constructor
      · rintro (h | h)
        · exact Or.inl h
        · exact Or.inr (List.mem_cons_of_mem _ h)
      · rintro (h | h)
        · exact Or.inl h
        · rcases List.mem_cons.mp h with h | h
          · exact Or.inl (h ▸ hx)
          · exact Or.inr h
    · rw [if_neg hx, ih]
      simp only [List.mem_append, List.mem_cons, List.mem_singleton]
      tauto

theorem pyUnique_mem {α : Type} [DecidableEq α] (l : List α) (a : α) :
    a ∈ pyUnique l ↔ a ∈ l := by
  unfold pyUnique
  rw [pyUnique_foldl_mem]
  simp

theorem sum_map_nonneg {α : Type} (l : List α) (f : α → Int) (h : ∀ x ∈ l, 0 ≤ f x) :
    0 ≤ (l.map f).sum := by
  induction l with
  | nil => simp
  | cons x t ih =>
    simp only [List.map_cons, List.sum_cons]
    have h1 := h x (List.mem_cons_self x t)
    have h2 := ih (fun y hy => h y (List.mem_cons_of_mem _ hy))
    omega

theorem two_mem_le_sum_map {α : Type} [DecidableEq α] (l : List α) (f : α → Int) (a b : α)
    (ha : a ∈ l) (hb : b ∈ l) (hne : a ≠ b) (h : ∀ x ∈ l, 0 ≤ f x) :
    f a + f b ≤ (l.map f).sum := by
  have hperm : List.Perm (l.map f) (f a :: (l.erase a).map f) := by
    have := List.perm_cons_erase ha
    simpa using List.Perm.map f this
  rw [List.Perm.sum_eq hperm, List.sum_cons]
  have hb2 : b ∈ l.erase a := (List.mem_erase_of_ne hne.symm).mpr hb
  have hfb : f b ≤ ((l.erase a).map f).sum := by
    apply List.single_le_sum
    · intro y hy
      obtain ⟨x, hx, rfl⟩ := List.mem_map.mp hy
      exact h x (List.mem_of_mem_erase hx)
    · exact List.mem_map_of_mem f hb2
  omega

theorem evalI_append (e1 e2 : ILin) (v : VarKey → Int) :
    evalI (e1 ++ e2) v = evalI e1 v + evalI e2 v := by
  unfold evalI
  rw [List.map_append, List.sum_append]

theorem evalI_cons (c : Int × VarKey) (t : ILin) (v : VarKey → Int) :
    evalI (c :: t) v = c.1 * v c.2 + evalI t v := by
  unfold evalI
  rw [List.map_cons, List.sum_cons]

theorem evalI_unit_coeff {α : Type} (l : List α) (key : α → VarKey) (v : VarKey → Int) :
    evalI (l.map (fun a => ((1 : Int), key a))) v = (l.map (fun a => v (key a))).sum := by
  unfold evalI
  rw [List.map_map]
  simp [Function.comp_def]

theorem evalI_single (c : Int) (k : VarKey) (v : VarKey → Int) :
    evalI [(c, k)] v = c * v k := by
  unfold evalI
  simp

theorem exists_val_one_of_one_le (l : ILin) (v : VarKey → Int)
    (hcoef : ∀ ck ∈ l, ck.1 = 1) (hbin : ∀ ck ∈ l, v ck.2 = 0 ∨ v ck.2 = 1)
    (h : 1 ≤ evalI l v) :
    ∃ ck ∈ l, v ck.2 = 1 := by
  induction l with
  | nil => simp [evalI] at h
  | cons c t ih =>
    rw [evalI_cons, hcoef c (List.mem_cons_self c t), one_mul] at h
    rcases hbin c (List.mem_cons_self c t) with h0 | h1
    · rw [h0, zero_add] at h
      obtain ⟨ck, hck, hv⟩ := ih (fun x hx => hcoef x (List.mem_cons_of_mem _ hx))
        (fun x hx => hbin x (List.mem_cons_of_mem _ hx)) h
      exact ⟨ck, List.mem_cons_of_mem _ hck, hv⟩
    · exact ⟨c, List.mem_cons_self c t, h1⟩

theorem satisfies_con (v : VarKey → Int) (cs : List LinCon) (c : LinCon)
    (h : satisfies v cs = true) (hc : c ∈ cs) : conHolds v c = true := by
  unfold satisfies at h
  exact List.all_eq_true.mp h c hc

theorem insertSorted_perm (x : Str) (l : List Str) :
    List.Perm (insertSorted x l) (x :: l) := by
  induction l with
  | nil => exact List.Perm.refl _
  | cons y t ih =>
    unfold insertSorted
    by_cases h : strLe x y = true
    · rw [if_pos h]
    · rw [if_neg h]
      exact List.Perm.trans (List.Perm.cons y ih) (List.Perm.swap x y t)

theorem pySorted_perm (l : List Str) : List.Perm (pySorted l) l := by
  induction l with
  | nil => exact List.Perm.refl _
  | cons x t ih =>
    unfold pySorted
    simp only [List.foldr_cons]
    exact List.Perm.trans (insertSorted_perm x _) (List.Perm.cons x ih)

theorem modifyHead_append_of_ne_nil {α : Type} (f : List α → List α) (l m : List (List α))
    (h : l ≠ []) : (l ++ m).modifyHead f = l.modifyHead f ++ m := by
  cases l with
  | nil => exact absurd rfl h
  | cons a t => rfl

theorem splitOn_sep_first (a rest : Str) (ha : '_' ∉ a) :
    (a ++ '_' :: rest).splitOn '_' = a :: rest.splitOn '_' := by
  show (a ++ '_' :: rest).splitOnP (· == '_') = a :: rest.splitOnP (· == '_')
  apply List.splitOnP_first
  · intro x hx
    simp only [beq_iff_eq]
    exact fun h => ha (h ▸ hx)
  · simp

theorem splitOn_eq_self (a : Str) (ha : '_' ∉ a) : a.splitOn '_' = [a] := by
  show a.splitOnP (· == '_') = [a]
  apply List.splitOnP_eq_single
  intro x hx
  simp only [beq_iff_eq]
  exact fun h => ha (h ▸ hx)

theorem splitOn_ne_nil (s : Str) : s.splitOn '_' ≠ [] :=
  List.splitOnP_ne_nil _ s

theorem splitOn_append_last (s b : Str) (hb : '_' ∉ b) :
    (s ++ '_' :: b).splitOn '_' = s.splitOn '_' ++ [b] := by
  show (s ++ '_' :: b).splitOnP (· == '_') = s.splitOnP (· == '_') ++ [b]
  induction s with
  | nil =>
    simp only [List.nil_append, List.splitOnP_nil, List.splitOnP_cons, beq_self_eq_true,
      if_true]
    rw [show b.splitOnP (· == '_') = [b] from splitOn_eq_self b hb]
    rfl
  | cons a t ih =>
    simp only [List.cons_append, List.splitOnP_cons]
    by_cases h : (a == '_') = true
    · rw [if_pos h, if_pos h, ih]
      rfl
    · rw [if_neg h, if_neg h, ih,
        modifyHead_append_of_ne_nil _ _ _ (List.splitOnP_ne_nil _ t)]

theorem firstTok_of_clean (c r : Str) (hc : '_' ∉ c) : firstTok (c ++ '_' :: r) = c := by
  unfold firstTok
  rw [splitOn_sep_first c r hc]
  rfl

theorem intercalate_single_chunk (x : Str) : ['_'].intercalate [x] = x := by
  simp [List.intercalate]

theorem decodeTriple_name (p e s b : Str) (hp : '_' ∉ p) (he : '_' ∉ e) (hb : '_' ∉ b) :
    decodeTriple (p ++ '_' :: (e ++ '_' :: (s ++ '_' :: b))) = some (e, s, b) := by
  have hparts : (p ++ '_' :: (e ++ '_' :: (s ++ '_' :: b))).splitOn '_'
      = p :: e :: (s.splitOn '_' ++ [b]) := by
    rw [splitOn_sep_first _ _ hp, splitOn_sep_first _ _ he, splitOn_append_last _ _ hb]
  have hpos : 0 < (s.splitOn '_').length :=
    List.length_pos.mpr (splitOn_ne_nil s)
  unfold decodeTriple
  rw [hparts]
  rw [if_pos (by simp; omega)]
  have h1 : (p :: e :: (s.splitOn '_' ++ [b])).getD 1 [] = e := rfl
  have h2 : ((p :: e :: (s.splitOn '_' ++ [b])).drop 2).dropLast = s.splitOn '_' := by
    simp [List.dropLast_concat]
  have h3 : (p :: e :: (s.splitOn '_' ++ [b])).getLastD [] = b := by
    rw [show p :: e :: (s.splitOn '_' ++ [b]) = (p :: e :: s.splitOn '_') ++ [b] by simp,
      List.getLastD_eq_getLast?, List.getLast?_concat]
    rfl
  rw [h1, h2, h3, List.intercalate_splitOn]

theorem find?_of_code_nodup {α : Type} (f : α → Str) (l : List α) (x : α)
    (hnd : (l.map f).Nodup) (hx : x ∈ l) :
    l.find? (fun r => f r = f x) = some x := by
  induction l with
  | nil => cases hx
  | cons c t ih =>
    rcases List.mem_cons.mp hx with rfl | hmem
    · rw [List.find?_cons_of_pos]
      simp
    · have hne : ¬(f c = f x) := by
        intro he
        rw [List.map_cons, List.nodup_cons] at hnd
        exact hnd.1 (he ▸ List.mem_map_of_mem f hmem)
      rw [List.find?_cons_of_neg]
      · exact ih (List.nodup_cons.mp (by rw [List.map_cons] at hnd; exact hnd)).2 hmem
      · simpa using hne

theorem find?_map_pair (f : Str → Str) (l : List Str) (hnd : l.Nodup) (b : Str) (hb : b ∈ l) :
    (l.map (fun x => (x, f x))).find? (fun kv => kv.1 = b) = some (b, f b) := by
  induction l with
  | nil => cases hb
  | cons a t ih =>
    rcases List.mem_cons.mp hb with rfl | hmem
    · rw [List.map_cons, List.find?_cons_of_pos]
      simp
    · have hne : a ≠ b := by
        rintro rfl
        exact (List.nodup_cons.mp hnd).1 hmem
      rw [List.map_cons, List.find?_cons_of_neg]
      · exact ih (List.nodup_cons.mp hnd).2 hmem
      · simpa using hne

theorem foldl_addCon_constraints (l : List LinCon) (m : LpModel) :
    (l.foldl addCon m).constraints = m.constraints ++ l := by
  induction l generalizing m with
  | nil => simp
  | cons c t ih =>
    rw [List.foldl_cons, ih]
    simp [addCon]

theorem foldl_balanceStep_constraints (inp : SchedInput) (l : List (Str × Str × Str))
    (m : LpModel) :
    ((l.foldl (balanceStep inp) m).constraints) =
      m.constraints ++ l.flatMap (balanceConsFor inp) := by
  induction l generalizing m with
  | nil => simp
  | cons p t ih =>
    rw [List.foldl_cons, ih]
    simp [balanceStep, setObjective, addCon, balanceConsFor]

theorem buildModel_constraints (inp : SchedInput) :
    (buildModel inp).constraints =
      studentExclCons inp ++ profExclCons inp ++ sizeCons inp ++ requiredCons inp ++
        balanceCons inp := by
  unfold buildModel balanceCons
  rw [foldl_balanceStep_constraints, foldl_addCon_constraints, foldl_addCon_constraints,
    foldl_addCon_constraints, foldl_addCon_constraints]
  simp [setObjective, List.append_assoc]

theorem mem_xKeysRaw (inp : SchedInput) (s : Nat) (sec b : Str) :
    (s, sec, b) ∈ xKeysRaw inp ↔
      s ∈ students inp ∧ hasAnyRequest inp s = true ∧ sec ∈ courseSections inp ∧
        requested inp s (firstTok sec) = true ∧ b ∈ availOf inp (firstTok sec) := by
  unfold xKeysRaw
  rw [List.mem_flatMap]
  constructor
  · rintro ⟨s0, hs0, hmem⟩
    by_cases h1 : hasAnyRequest inp s0 = true
    · rw [if_pos h1, List.mem_flatMap] at hmem
      obtain ⟨sec0, hsec0, hmem⟩ := hmem
      by_cases h2 : requested inp s0 (firstTok sec0) = true ∧
          (courseToBlocks inp (firstTok sec0)).isSome = true
      · rw [if_pos h2, List.mem_map] at hmem
        obtain ⟨b0, hb0, heq⟩ := hmem
        simp only [Prod.mk.injEq] at heq
        obtain ⟨rfl, rfl, rfl⟩ := heq
        exact ⟨hs0, h1, hsec0, h2.1, hb0⟩
      · rw [if_neg h2] at hmem
        cases hmem
    · rw [if_neg h1] at hmem
      cases hmem
  · rintro ⟨hs, h1, hsec, hreq, hb⟩
    refine ⟨s, hs, ?_⟩
    rw [if_pos h1, List.mem_flatMap]
    refine ⟨sec, hsec, ?_⟩
    have hsome : (courseToBlocks inp (firstTok sec)).isSome = true := by
      unfold availOf at hb
      cases hcb : courseToBlocks inp (firstTok sec) with
      | none => rw [hcb] at hb; cases hb
      | some bs => simp [hcb]
    rw [if_pos ⟨hreq, hsome⟩, List.mem_map]
    exact ⟨b, hb, rfl⟩

theorem mem_xKeys (inp : SchedInput) (s : Nat) (sec b : Str) :
    (s, sec, b) ∈ xKeys inp ↔
      s ∈ students inp ∧ hasAnyRequest inp s = true ∧ sec ∈ courseSections inp ∧
        requested inp s (firstTok sec) = true ∧ b ∈ availOf inp (firstTok sec) := by
  unfold xKeys
  rw [pyUnique_mem, mem_xKeysRaw]

theorem mem_usedKeysRaw (inp : SchedInput) (sec b : Str) :
    (sec, b) ∈ usedKeysRaw inp ↔
      sec ∈ courseSections inp ∧ (courseToBlocks inp (firstTok sec)).isSome = true ∧
        b ∈ availOf inp (firstTok sec) := by
  unfold usedKeysRaw
  rw [List.mem_flatMap]
  constructor
  · rintro ⟨sec0, hsec0, hmem⟩
    by_cases h1 : (courseToBlocks inp (firstTok sec0)).isSome = true
    · rw [if_pos h1, List.mem_map] at hmem
      obtain ⟨b0, hb0, heq⟩ := hmem
      simp only [Prod.mk.injEq] at heq
      obtain ⟨rfl, rfl⟩ := heq
      exact ⟨hsec0, h1, hb0⟩
    · rw [if_neg h1] at hmem
      cases hmem
  · rintro ⟨hsec, h1, hb⟩
    refine ⟨sec, hsec, ?_⟩
    rw [if_pos h1, List.mem_map]
    exact ⟨b, hb, rfl⟩

theorem mem_usedKeys (inp : SchedInput) (sec b : Str) :
    (sec, b) ∈ usedKeys inp ↔
      sec ∈ courseSections inp ∧ (courseToBlocks inp (firstTok sec)).isSome = true ∧
        b ∈ availOf inp (firstTok sec) := by
  unfold usedKeys
  rw [pyUnique_mem, mem_usedKeysRaw]

theorem requested_student_mem (inp : SchedInput) (s : Nat) (c : Str)
    (h : requested inp s c = true) : s ∈ students inp ∧ hasAnyRequest inp s = true := by
  unfold requested at h
  obtain ⟨r, hr, hp⟩ := List.any_eq_true.mp h
  simp only [decide_eq_true_eq] at hp
  constructor
  · unfold students
    rw [pyUnique_mem, List.mem_map]
    exact ⟨r, hr, hp.1⟩
  · unfold hasAnyRequest
    rw [List.any_eq_true]
    refine ⟨r, hr, ?_⟩
    simp [hp.1]

theorem lecturer_section_mem (inp : SchedInput) (l : LecturerRec) (hl : l ∈ inp.lecturers) :
    sectionIdOf l ∈ courseSections inp := by
  unfold courseSections
  rw [pyUnique_mem, List.mem_map]
  exact ⟨l, hl, rfl⟩

theorem sectionProfs_ne_nil (inp : SchedInput) (l : LecturerRec) (hl : l ∈ inp.lecturers) :
    sectionProfs inp (sectionIdOf l) ≠ [] := by
  unfold sectionProfs
  intro h
  rw [List.map_eq_nil_iff] at h
  have : l ∈ inp.lecturers.filter (fun l2 => decide (sectionIdOf l2 = sectionIdOf l)) := by
    rw [List.mem_filter]
    exact ⟨hl, by simp⟩
  rw [h] at this
  cases this

theorem courseToBlocks_eq_of_nodup (inp : SchedInput) (cr : CourseRec)
    (hnd : (inp.courses.map (·.code)).Nodup) (hcr : cr ∈ inp.courses) :
    courseToBlocks inp cr.code = some cr.availableBlocks := by
  unfold courseToBlocks
  rw [show inp.courses.reverse.find? (fun r => r.code = cr.code) = some cr from
    find?_of_code_nodup (·.code) inp.courses.reverse cr
      (by rw [List.map_reverse, List.nodup_reverse]; exact hnd)
      (List.mem_reverse.mpr hcr)]
  rfl

theorem courses_find?_eq_of_nodup (inp : SchedInput) (cr : CourseRec)
    (hnd : (inp.courses.map (·.code)).Nodup) (hcr : cr ∈ inp.courses) :
    inp.courses.find? (fun r => r.code = cr.code) = some cr :=
  find?_of_code_nodup (·.code) inp.courses cr hnd hcr

theorem unmetStep_some (schedules : List (Str × List SEntry)) (r : RequestRec) (u : UnmetEntry)
    (h : unmetStep schedules r = some u) :
    u.studentId = r.studentId ∧ u.code = r.code ∧
      ¬ containsCourse schedules r.studentId r.code := by
  unfold unmetStep at h
  unfold containsCourse
  split at h
  next es hdg =>
    by_cases hmem : r.code ∈ es.map (·.code)
    · rw [if_pos hmem] at h
      cases h
    · rw [if_neg hmem] at h
      injection h with h
      subst h
      refine ⟨rfl, rfl, ?_⟩
      rintro ⟨es2, hes2, hmm⟩
      rw [hdg] at hes2
      injection hes2 with hes2
      subst hes2
      exact hmem hmm
  next hdg =>
    injection h with h
    subst h
    refine ⟨rfl, rfl, ?_⟩
    rintro ⟨es, hes, hmm⟩
    rw [hdg] at hes
    exact Option.noConfusion hes

/-- C5: for every Required request, exactly one of the two outcomes holds
after extraction: the student's decoded schedule contains the course, or a
matching entry appears in the unfulfilled-required list — mutually
exclusive and exhaustive, for any decoded schedule dict. -/
theorem required_schedule_xor_unmet (schedules : List (Str × List SEntry))
    (requests : List RequestRec) (r : RequestRec) (hr : r ∈ requests)
    (hreq : r.rtype = ReqType.required) :
    (containsCourse schedules r.studentId r.code ∧
      ¬ ∃ u ∈ unfulfilledRequired schedules requests,
          u.studentId = r.studentId ∧ u.code = r.code) ∨
      (¬ containsCourse schedules r.studentId r.code ∧
        ∃ u ∈ unfulfilledRequired schedules requests,
          u.studentId = r.studentId ∧ u.code = r.code) := by
  by_cases hc : containsCourse schedules r.studentId r.code
  · left
    refine ⟨hc, ?_⟩
    rintro ⟨u, hu, hsid, hcode⟩
    unfold unfulfilledRequired at hu
    obtain ⟨r2, hr2, hstep⟩ := List.mem_filterMap.mp hu
    obtain ⟨h1, h2, h3⟩ := unmetStep_some schedules r2 u hstep
    rw [h1] at hsid
    rw [h2] at hcode
    rw [hsid, hcode] at h3
    exact h3 hc
  · right
    refine ⟨hc, ?_⟩
    have hstep : unmetStep schedules r = some ⟨r.studentId, r.code, r.title⟩ := by
      unfold unmetStep
      split
      next es hdg =>
        have hmm : ¬ (r.code ∈ es.map (·.code)) := fun hmm => hc ⟨es, hdg, hmm⟩
        rw [if_neg hmm]
      next hdg => rfl
    refine ⟨⟨r.studentId, r.code, r.title⟩, ?_, rfl, rfl⟩
    unfold unfulfilledRequired
    rw [List.mem_filterMap]
    refine ⟨r, ?_, hstep⟩
    rw [List.mem_filter]
    exact ⟨hr, by simp [hreq]⟩

theorem required_schedule_xor_unmet_witness :
    (containsCourse [] 7 "ai".data ∧
      ¬ ∃ u ∈ unfulfilledRequired [] [mkReq 7 "ai" "AI" ReqType.required],
          u.studentId = 7 ∧ u.code = "ai".data) ∨
      (¬ containsCourse [] 7 "ai".data ∧
        ∃ u ∈ unfulfilledRequired [] [mkReq 7 "ai" "AI" ReqType.required],
          u.studentId = 7 ∧ u.code = "ai".data) :=
  required_schedule_xor_unmet [] [mkReq 7 "ai" "AI" ReqType.required]
    (mkReq 7 "ai" "AI" ReqType.required) (by decide) (by decide)

/-- C10: on a run with an empty request set the statistics computation
fails: the Total-row fulfillment rate divides by the raw request count
without a guard (the three per-tier rates are guarded by max 1), so with
zero requests the division raises — modelled as none. -/
theorem stats_fail_on_zero_requests (schedules : List (Str × List SEntry)) :
    computeStats schedules [] = none := by
  unfold computeStats
  cases h : computeFulfilled schedules [] with
  | none => rfl
  | some f => simp [pydiv]

/-- C8: variable-name decoding, shared by the student (x_) and professor
(y_) extraction loops, deterministically takes the token after the prefix
as the entity id, the trailing token as the block, and re-joins the middle
tokens as the section identifier — also when the section identifier (e.g.
its course code) contains underscores. -/
theorem decode_name_deterministic (e s b : Str) (he : '_' ∉ e) (hb : '_' ∉ b) :
    decodeTriple ("x".data ++ '_' :: (e ++ '_' :: (s ++ '_' :: b))) = some (e, s, b) ∧
      decodeTriple ("y".data ++ '_' :: (e ++ '_' :: (s ++ '_' :: b))) = some (e, s, b) :=
  ⟨decodeTriple_name _ e s b (by decide) he hb,
    decodeTriple_name _ e s b (by decide) he hb⟩

theorem decode_name_deterministic_witness :
    decodeTriple ("x".data ++ '_' :: ("12".data ++ '_' :: ("ai_ml_1".data ++ '_' ::
        "2B".data))) = some ("12".data, "ai_ml_1".data, "2B".data) ∧
      decodeTriple ("y".data ++ '_' :: ("12".data ++ '_' :: ("ai_ml_1".data ++ '_' ::
        "2B".data))) = some ("12".data, "ai_ml_1".data, "2B".data) :=
  decode_name_deterministic "12".data "ai_ml_1".data "2B".data (by decide) (by decide)

/-- C9: every entity with a decoded schedule gets one row in the block
grid; that row has exactly one cell per known block (its column keys are a
permutation of the block universe, and lookup of each block succeeds), and
every block with no assignment holds the explicit "---" placeholder. -/
theorem block_grid_dense_rows {E : Type} (blockOf infoOf : E → Str)
    (schedules : List (Str × List E)) (blocks : List Str) (hnd : blocks.Nodup)
    (id : Str) (es : List E) (hmem : (id, es) ∈ schedules) :
    (id, (pySorted blocks).map fun b => (b, cellOf blockOf infoOf es b)) ∈
        blockGrid blockOf infoOf schedules blocks ∧
      List.Perm (((pySorted blocks).map fun b => (b, cellOf blockOf infoOf es b)).map
        Prod.fst) blocks ∧
      (∀ b ∈ blocks,
        dictGet ((pySorted blocks).map fun b2 => (b2, cellOf blockOf infoOf es b2)) b =
          some (cellOf blockOf infoOf es b)) ∧
      (∀ b ∈ blocks, (∀ e ∈ es, blockOf e ≠ b) → cellOf blockOf infoOf es b = "---".data) := by
  refine ⟨?_, ?_, ?_, ?_⟩
  · unfold blockGrid
    rw [List.mem_map]
    exact ⟨(id, es), hmem, rfl⟩
  · rw [List.map_map]
    have h1 : (Prod.fst ∘ fun b => (b, cellOf blockOf infoOf es b)) = fun b : Str => b := rfl
    rw [h1]
    have h2 : List.map (fun b : Str => b) (pySorted blocks) = pySorted blocks := by
      simp
    rw [h2]
    exact pySorted_perm blocks
  · intro b hb
    unfold dictGet
    rw [find?_map_pair (cellOf blockOf infoOf es) (pySorted blocks)
      (((pySorted_perm blocks).nodup_iff).mpr hnd) b
      (((pySorted_perm blocks).mem_iff).mpr hb)]
    rfl
  · intro b hb hnone
    unfold cellOf
    have hfind : es.reverse.find? (fun e => decide (blockOf e = b)) = none := by
      rw [List.find?_eq_none]
      intro e he2
      simp only [decide_eq_true_eq]
      exact hnone e (List.mem_reverse.mp he2)
    rw [hfind]

theorem block_grid_dense_rows_witness :
    (("7".data, (pySorted ["1B".data, "1A".data]).map fun b =>
        (b, cellOf SEntry.blk sEntryInfo [mkSEntry "7" "ai" "AI" "1" "1A" "p1"] b)) ∈
        blockGrid SEntry.blk sEntryInfo
          [("7".data, [mkSEntry "7" "ai" "AI" "1" "1A" "p1"])] ["1B".data, "1A".data]) ∧
      List.Perm ((((pySorted ["1B".data, "1A".data]).map fun b =>
        (b, cellOf SEntry.blk sEntryInfo [mkSEntry "7" "ai" "AI" "1" "1A" "p1"] b)).map
          Prod.fst)) ["1B".data, "1A".data] ∧
      (∀ b ∈ ["1B".data, "1A".data],
        dictGet ((pySorted ["1B".data, "1A".data]).map fun b2 =>
            (b2, cellOf SEntry.blk sEntryInfo [mkSEntry "7" "ai" "AI" "1" "1A" "p1"] b2)) b =
          some (cellOf SEntry.blk sEntryInfo [mkSEntry "7" "ai" "AI" "1" "1A" "p1"] b)) ∧
      (∀ b ∈ ["1B".data, "1A".data],
        (∀ e ∈ [mkSEntry "7" "ai" "AI" "1" "1A" "p1"], SEntry.blk e ≠ b) →
          cellOf SEntry.blk sEntryInfo [mkSEntry "7" "ai" "AI" "1" "1A" "p1"] b =
            "---".data) :=
  block_grid_dense_rows SEntry.blk sEntryInfo
    [("7".data, [mkSEntry "7" "ai" "AI" "1" "1A" "p1"])] ["1B".data, "1A".data]
    (by decide) "7".data [mkSEntry "7" "ai" "AI" "1" "1A" "p1"] (by decide)

/-- C2 (amended): when lecturer course codes are underscore-free — so that
section.split('_')[0] really recovers the section's course — an x variable
exists for (student, section, block) iff the student has a request for the
section's course and the block is in that course's available-block set and
a qualified professor for the section exists (the last condition holds
automatically, because sections are derived from lecturer rows; the builder
itself never tests it for x). -/
theorem x_var_created_iff_no_underscore (inp : SchedInput)
    (hnl : ∀ l ∈ inp.lecturers, '_' ∉ l.code)
    (l : LecturerRec) (hl : l ∈ inp.lecturers) (s : Nat) (b : Str) :
    (s, sectionIdOf l, b) ∈ xKeys inp ↔
      requested inp s l.code = true ∧ b ∈ availOf inp l.code ∧
        sectionProfs inp (sectionIdOf l) ≠ [] := by
  have hft : firstTok (sectionIdOf l) = l.code := firstTok_of_clean _ _ (hnl l hl)
  rw [mem_xKeys, hft]
  constructor
  · rintro ⟨hs, hany, hsec, hreq, hb⟩
    exact ⟨hreq, hb, sectionProfs_ne_nil inp l hl⟩
  · rintro ⟨hreq, hb, hprofs⟩
    obtain ⟨hs, hany⟩ := requested_student_mem inp s l.code hreq
    exact ⟨hs, hany, lecturer_section_mem inp l hl, hreq, hb⟩

/-- C2 counterexample: at c2inp all three conditions of the claim hold for
(student 7, section "ai_ml_1", block "1A"), yet no x variable is created —
the builder looks up the first underscore token "ai" instead of the
section's course "ai_ml". -/
theorem x_var_missing_despite_conditions :
    sectionIdOf (mkLect "ai_ml" 1 "p1") = "ai_ml_1".data ∧
      requested c2inp 7 "ai_ml".data = true ∧
      "1A".data ∈ availOf c2inp "ai_ml".data ∧
      sectionProfs c2inp "ai_ml_1".data ≠ [] ∧
      (7, "ai_ml_1".data, "1A".data) ∉ xKeys c2inp := by
  decide

theorem x_var_created_iff_no_underscore_witness :
    (7, sectionIdOf (mkLect "ai" 1 "p1"), "1A".data) ∈ xKeys c2winp ↔
      requested c2winp 7 (mkLect "ai" 1 "p1").code = true ∧
        "1A".data ∈ availOf c2winp (mkLect "ai" 1 "p1").code ∧
        sectionProfs c2winp (sectionIdOf (mkLect "ai" 1 "p1")) ≠ [] :=
  x_var_created_iff_no_underscore c2winp (by decide) (mkLect "ai" 1 "p1") (by decide) 7
    "1A".data

theorem studentExclCon_mem (inp : SchedInput) (s : Nat) (b : Str)
    (hs : s ∈ students inp) (hb : b ∈ allBlocks inp) :
    studentExclCon inp s b ∈ (buildModel inp).constraints := by
  rw [buildModel_constraints]
  apply List.mem_append_left
  apply List.mem_append_left
  apply List.mem_append_left
  apply List.mem_append_left
  unfold studentExclCons
  rw [List.mem_flatMap]
  exact ⟨s, hs, List.mem_map.mpr ⟨b, hb, rfl⟩⟩

/-- C6: for every student and every block the built model contains the
constraint bounding the sum of that student's x variables in that block by
1, and consequently no binary solution of the model assigns one student two
different sections in the same block. -/
theorem student_block_exclusive (inp : SchedInput) (s : Nat) (b : Str)
    (hs : s ∈ students inp) (hb : b ∈ allBlocks inp) :
    studentExclCon inp s b ∈ (buildModel inp).constraints ∧
      ∀ v : VarKey → Int, satisfies v (buildModel inp).constraints = true → binaryOn v →
        ∀ sec1 sec2 : Str, (s, sec1, b) ∈ xKeys inp → (s, sec2, b) ∈ xKeys inp →
          sec1 ≠ sec2 → ¬(v (VarKey.x s sec1 b) = 1 ∧ v (VarKey.x s sec2 b) = 1) := by
  refine ⟨studentExclCon_mem inp s b hs hb, ?_⟩
  rintro v hsat hbin sec1 sec2 h1 h2 hne ⟨hv1, hv2⟩
  have hcon := satisfies_con v _ _ hsat (studentExclCon_mem inp s b hs hb)
  unfold conHolds studentExclCon at hcon
  simp only [decide_eq_true_eq] at hcon
  rw [evalI_unit_coeff ((courseSections inp).filter
    (fun sec => decide ((s, sec, b) ∈ xKeys inp))) (fun sec => VarKey.x s sec b) v] at hcon
  have hm1 : sec1 ∈ (courseSections inp).filter (fun sec => decide ((s, sec, b) ∈ xKeys inp)) := by
    rw [List.mem_filter]
    exact ⟨((mem_xKeys inp s sec1 b).mp h1).2.2.1, by simpa using h1⟩
  have hm2 : sec2 ∈ (courseSections inp).filter (fun sec => decide ((s, sec, b) ∈ xKeys inp)) := by
    rw [List.mem_filter]
    exact ⟨((mem_xKeys inp s sec2 b).mp h2).2.2.1, by simpa using h2⟩
  have hsum := two_mem_le_sum_map _ (fun sec => v (VarKey.x s sec b)) sec1 sec2 hm1 hm2 hne
    (fun x hx => by
      show (0 : Int) ≤ v (VarKey.x s x b)
      rcases hbin (VarKey.x s x b) with h0 | h0 <;> omega)
  simp only [] at hsum
  rw [hv1, hv2] at hsum
  omega

theorem student_block_exclusive_witness :
    studentExclCon c6winp 7 "1A".data ∈ (buildModel c6winp).constraints ∧
      ∀ v : VarKey → Int, satisfies v (buildModel c6winp).constraints = true → binaryOn v →
        ∀ sec1 sec2 : Str, (7, sec1, "1A".data) ∈ xKeys c6winp →
          (7, sec2, "1A".data) ∈ xKeys c6winp → sec1 ≠ sec2 →
          ¬(v (VarKey.x 7 sec1 "1A".data) = 1 ∧ v (VarKey.x 7 sec2 "1A".data) = 1) :=
  student_block_exclusive c6winp 7 "1A".data (by decide) (by decide)

theorem mem_requiredConTerms (inp : SchedInput) (s : Nat) (c : Str) (ck : Int × VarKey)
    (h : ck ∈ requiredConTerms inp s c) :
    ck.1 = 1 ∧ ∃ sec ∈ relevantSections inp c, ∃ b,
      (s, sec, b) ∈ xKeys inp ∧ ck.2 = VarKey.x s sec b := by
  unfold requiredConTerms at h
  rw [List.mem_flatMap] at h
  obtain ⟨sec, hsec, h⟩ := h
  rw [List.mem_filterMap] at h
  obtain ⟨b, hb, h⟩ := h
  by_cases hk : (s, sec, b) ∈ xKeys inp
  · rw [if_pos hk] at h
    injection h with h
    subst h
    exact ⟨rfl, sec, hsec, b, hk, rfl⟩
  · rw [if_neg hk] at h
    cases h

theorem requiredCon_mem (inp : SchedInput) (r : RequestRec) (hr : r ∈ inp.requests)
    (hreq : r.rtype = ReqType.required) (hrel : relevantSections inp r.code ≠ []) :
    requiredCon inp r.studentId r.code ∈ (buildModel inp).constraints := by
  rw [buildModel_constraints]
  apply List.mem_append_left
  apply List.mem_append_right
  unfold requiredCons
  rw [List.mem_filterMap]
  refine ⟨r, ?_, ?_⟩
  · rw [List.mem_filter]
    exact ⟨hr, by simp [hreq]⟩
  · rw [if_pos hrel]

/-- C4 (amended): for every Required request whose course has at least one
section in the lecturer data, the built model contains the hard constraint
summing the student's x variables over that course's sections and allowed
blocks with lower bound 1, and every binary solution of the model assigns
the student some section of that course; a Required request for a course
with NO sections is skipped and adds no constraint (see the
counterexample), so infeasibility is only surfaced when sections exist. -/
theorem required_constraint_present (inp : SchedInput) (r : RequestRec)
    (hr : r ∈ inp.requests) (hreq : r.rtype = ReqType.required)
    (hrel : relevantSections inp r.code ≠ []) :
    requiredCon inp r.studentId r.code ∈ (buildModel inp).constraints ∧
      ∀ v : VarKey → Int, satisfies v (buildModel inp).constraints = true → binaryOn v →
        ∃ sec b, (r.studentId, sec, b) ∈ xKeys inp ∧ firstTok sec = r.code ∧
          v (VarKey.x r.studentId sec b) = 1 := by
  refine ⟨requiredCon_mem inp r hr hreq hrel, ?_⟩
  intro v hsat hbin
  have hcon := satisfies_con v _ _ hsat (requiredCon_mem inp r hr hreq hrel)
  unfold conHolds requiredCon at hcon
  simp only [decide_eq_true_eq] at hcon
  obtain ⟨ck, hck, hv⟩ := exists_val_one_of_one_le _ v
    (fun ck h => (mem_requiredConTerms inp r.studentId r.code ck h).1)
    (fun ck h => by
      obtain ⟨h1, sec, hsec, b, hkey, hk2⟩ := mem_requiredConTerms inp r.studentId r.code ck h
      rw [hk2]
      exact hbin (VarKey.x r.studentId sec b)) hcon
  obtain ⟨h1, sec, hsec, b, hkey, hk2⟩ := mem_requiredConTerms inp r.studentId r.code ck hck
  refine ⟨sec, b, hkey, ?_, by rw [← hk2]; exact hv⟩
  unfold relevantSections at hsec
  rw [List.mem_filter] at hsec
  simpa using hsec.2

/-- C4 counterexample: at c4inp the Required request is silently dropped —
the built model contains NO ≥ 1 constraint at all, and the all-zero
valuation (nobody scheduled) satisfies every constraint, so the model is
feasible although the Required request cannot be met. -/
theorem required_constraint_silently_skipped :
    mkReq 7 "phys" "PH" ReqType.required ∈ c4inp.requests ∧
      relevantSections c4inp "phys".data = [] ∧
      (∀ co ∈ (buildModel c4inp).constraints, ¬(co.op = COp.ge ∧ co.bound = 1)) ∧
      satisfies (fun _ => 0) (buildModel c4inp).constraints = true := by
  decide

theorem required_constraint_present_witness :
    requiredCon c4winp 7 "phys".data ∈ (buildModel c4winp).constraints ∧
      ∀ v : VarKey → Int, satisfies v (buildModel c4winp).constraints = true → binaryOn v →
        ∃ sec b, (7, sec, b) ∈ xKeys c4winp ∧ firstTok sec = "phys".data ∧
          v (VarKey.x 7 sec b) = 1 :=
  required_constraint_present c4winp (mkReq 7 "phys" "PH" ReqType.required) (by decide)
    (by decide) (by decide)

theorem sizeConsFor_expand (inp : SchedInput) (sec : Str) (bs : List Str)
    (hcb : courseToBlocks inp (firstTok sec) = some bs) :
    sizeConsFor inp sec = bs.flatMap (fun b =>
      if (sec, b) ∈ usedKeys inp then
        match inp.courses.find? (fun r => r.code = firstTok sec) with
        | none => []
        | some cr2 => [minCon inp sec b cr2, maxCon inp sec b cr2, oneProfCon inp sec b]
      else []) := by
  unfold sizeConsFor
  rw [hcb]

theorem sizeCons_mem (inp : SchedInput) (sec b : Str) (cr : CourseRec)
    (hsec : sec ∈ courseSections inp)
    (hcb : courseToBlocks inp (firstTok sec) = some cr.availableBlocks)
    (hfind : inp.courses.find? (fun r => r.code = firstTok sec) = some cr)
    (hb : b ∈ cr.availableBlocks) :
    minCon inp sec b cr ∈ (buildModel inp).constraints ∧
      maxCon inp sec b cr ∈ (buildModel inp).constraints := by
  have hused : (sec, b) ∈ usedKeys inp := by
    rw [mem_usedKeys]
    refine ⟨hsec, by simp [hcb], ?_⟩
    unfold availOf
    rw [hcb]
    exact hb
  have hin : ∀ co ∈ [minCon inp sec b cr, maxCon inp sec b cr, oneProfCon inp sec b],
      co ∈ (buildModel inp).constraints := by
    intro co hco
    rw [buildModel_constraints]
    apply List.mem_append_left
    apply List.mem_append_left
    apply List.mem_append_right
    unfold sizeCons
    rw [List.mem_flatMap]
    refine ⟨sec, hsec, ?_⟩
    rw [sizeConsFor_expand inp sec cr.availableBlocks hcb, List.mem_flatMap]
    refine ⟨b, hb, ?_⟩
    rw [if_pos hused, hfind]
    exact hco
  exact ⟨hin _ (by simp), hin _ (by simp)⟩

theorem enrollTerms_nonneg (inp : SchedInput) (sec b : Str) (v : VarKey → Int)
    (hbin : binaryOn v) : 0 ≤ evalI (enrollTerms inp sec b) v := by
  unfold enrollTerms
  rw [evalI_unit_coeff]
  apply sum_map_nonneg
  intro s hs
  rcases hbin (VarKey.x s sec b) with h0 | h0 <;> omega

/-- C7 (amended): the size-linkage constraints exist for every lecturer
section and every block its course allows, but the min/max sizes are read
from the course whose code is the FIRST underscore token of the section
identifier.  When course codes are underscore-free (and course codes are
unique), that course is the section's own course, and every binary solution
gives a used (section, block) an enrollment within [min, max] of its course
and an unused one an enrollment of 0. -/
theorem size_bounds_without_underscores (inp : SchedInput)
    (hnl : ∀ l ∈ inp.lecturers, '_' ∉ l.code)
    (hnd : (inp.courses.map (·.code)).Nodup)
    (l : LecturerRec) (hl : l ∈ inp.lecturers)
    (cr : CourseRec) (hcr : cr ∈ inp.courses) (hcode : cr.code = l.code)
    (b : Str) (hb : b ∈ cr.availableBlocks) :
    (sectionIdOf l, b) ∈ usedKeys inp ∧
      minCon inp (sectionIdOf l) b cr ∈ (buildModel inp).constraints ∧
      maxCon inp (sectionIdOf l) b cr ∈ (buildModel inp).constraints ∧
      ∀ v : VarKey → Int, satisfies v (buildModel inp).constraints = true → binaryOn v →
        (v (VarKey.used (sectionIdOf l) b) = 1 →
          cr.minSize ≤ evalI (enrollTerms inp (sectionIdOf l) b) v ∧
            evalI (enrollTerms inp (sectionIdOf l) b) v ≤ cr.maxSize) ∧
        (v (VarKey.used (sectionIdOf l) b) = 0 →
          evalI (enrollTerms inp (sectionIdOf l) b) v = 0) := by
  have hft : firstTok (sectionIdOf l) = l.code := firstTok_of_clean _ _ (hnl l hl)
  have hcb : courseToBlocks inp (firstTok (sectionIdOf l)) = some cr.availableBlocks := by
    rw [hft, ← hcode]
    exact courseToBlocks_eq_of_nodup inp cr hnd hcr
  have hfind : inp.courses.find? (fun r => r.code = firstTok (sectionIdOf l)) = some cr := by
    rw [hft, ← hcode]
    exact courses_find?_eq_of_nodup inp cr hnd hcr
  have hsec : sectionIdOf l ∈ courseSections inp := lecturer_section_mem inp l hl
  obtain ⟨hmin, hmax⟩ := sizeCons_mem inp (sectionIdOf l) b cr hsec hcb hfind hb
  refine ⟨?_, hmin, hmax, ?_⟩
  · rw [mem_usedKeys]
    refine ⟨hsec, by simp [hcb], ?_⟩
    unfold availOf
    rw [hcb]
    exact hb
  · intro v hsat hbin
    have hconMin := satisfies_con v _ _ hsat hmin
    have hconMax := satisfies_con v _ _ hsat hmax
    unfold conHolds minCon at hconMin
    unfold conHolds maxCon at hconMax
    simp only [decide_eq_true_eq] at hconMin hconMax
    rw [evalI_append, evalI_single] at hconMin hconMax
    have hpos := enrollTerms_nonneg inp (sectionIdOf l) b v hbin
    constructor
    · intro hv1
      rw [hv1] at hconMin hconMax
      constructor <;> [skip; skip] <;> omega
    · intro hv0
      rw [hv0] at hconMax
      simp only [mul_zero] at hconMax
      omega

/-- C7 counterexample: at c7inp the pair (section "ai_ml_1", block "1A")
has a usage indicator, its course is "ai_ml" with minimum size 5, yet the
binary valuation v7 satisfies every constraint of the built model while the
used section's enrollment is 1 < 5 — the claimed bounds of the section's
own course do not hold, because the builder read course "ai" instead. -/
theorem size_bounds_from_first_token_course :
    (("ai_ml_1".data, "1A".data) ∈ usedKeys c7inp ∧
      (c7inp.lecturers.find? (fun l => sectionIdOf l = "ai_ml_1".data)).map (·.code) =
        some "ai_ml".data ∧
      (c7inp.courses.find? (fun r => r.code = "ai_ml".data)).map (·.minSize) = some 5 ∧
      satisfies v7 (buildModel c7inp).constraints = true ∧
      v7 (VarKey.used "ai_ml_1".data "1A".data) = 1 ∧
      evalI (enrollTerms c7inp "ai_ml_1".data "1A".data) v7 = 1 ∧
      ¬((5 : Int) ≤ evalI (enrollTerms c7inp "ai_ml_1".data "1A".data) v7)) ∧
      binaryOn v7 := by
  constructor
  · decide
  · have hv : ∀ k, v7 k = 0 ∨ v7 k = 1 := by
      intro k
      unfold v7
      split
      · exact Or.inr rfl
      · exact Or.inl rfl
    intro k
    cases k with
    | diff s1 s2 b => rcases hv (VarKey.diff s1 s2 b) with h | h <;> omega
    | x s sec b => exact hv (VarKey.x s sec b)
    | y p sec b => exact hv (VarKey.y p sec b)
    | used sec b => exact hv (VarKey.used sec b)

theorem size_bounds_without_underscores_witness :
    (sectionIdOf (mkLect "ai" 1 "p1"), "1A".data) ∈ usedKeys c7winp ∧
      minCon c7winp (sectionIdOf (mkLect "ai" 1 "p1")) "1A".data (mkCourse "ai" "AI" ["1A"] 2 3) ∈
        (buildModel c7winp).constraints ∧
      maxCon c7winp (sectionIdOf (mkLect "ai" 1 "p1")) "1A".data (mkCourse "ai" "AI" ["1A"] 2 3) ∈
        (buildModel c7winp).constraints ∧
      ∀ v : VarKey → Int, satisfies v (buildModel c7winp).constraints = true → binaryOn v →
        (v (VarKey.used (sectionIdOf (mkLect "ai" 1 "p1")) "1A".data) = 1 →
          (mkCourse "ai" "AI" ["1A"] 2 3).minSize ≤
              evalI (enrollTerms c7winp (sectionIdOf (mkLect "ai" 1 "p1")) "1A".data) v ∧
            evalI (enrollTerms c7winp (sectionIdOf (mkLect "ai" 1 "p1")) "1A".data) v ≤
              (mkCourse "ai" "AI" ["1A"] 2 3).maxSize) ∧
        (v (VarKey.used (sectionIdOf (mkLect "ai" 1 "p1")) "1A".data) = 0 →
          evalI (enrollTerms c7winp (sectionIdOf (mkLect "ai" 1 "p1")) "1A".data) v = 0) :=
  size_bounds_without_underscores c7winp (by decide) (by decide) (mkLect "ai" 1 "p1")
    (by decide) (mkCourse "ai" "AI" ["1A"] 2 3) (by decide) (by decide) "1A".data (by decide)

/-- C1: the claim states the intended objective (as does the comment at
line 287), but the code builds a different one: PuLP `model += expression`
REPLACES the objective, so line 288 (`model += -0.01 * diff`) throws away the
priority-weighted objective set at line 181: the built model's objective is
just the -0.01-weighted diff variable of the last balance pair.  At c1inp
the achieved objective of the solution c1val is 0, while the objective the
spec describes evaluates to 3 (one fulfilled Required request, no
imbalance). -/
theorem balance_penalty_overwrites_objective :
    (buildModel c1inp).objective = penaltyExpr "ai_1".data "ai_2".data "1A".data ∧
      specObjective c1inp = (3, VarKey.x 7 "ai_1".data "1A".data) ::
        (3, VarKey.x 7 "ai_2".data "1A".data) ::
        penaltyExpr "ai_1".data "ai_2".data "1A".data ∧
      evalQ (buildModel c1inp).objective c1val = 0 ∧
      evalQ (specObjective c1inp) c1val = 3 := by
  refine ⟨rfl, rfl, ?_, ?_⟩
  · rw [show (buildModel c1inp).objective = penaltyExpr "ai_1".data "ai_2".data "1A".data
      from rfl]
    simp [evalQ, penaltyExpr, c1val]
  · rw [show specObjective c1inp = (3, VarKey.x 7 "ai_1".data "1A".data) ::
      (3, VarKey.x 7 "ai_2".data "1A".data) ::
      penaltyExpr "ai_1".data "ai_2".data "1A".data from rfl]
    simp [evalQ, penaltyExpr, c1val]

/-- C3 counterexample: an x variable whose solver value is 19/20 rounds to
1 and exceeds the 0.9 tolerance, yet produces NO schedule entry — the
student extraction loop requires the value to be EXACTLY 1; and a y
variable at exactly 9/10 is also dropped (the professor loop is strict). -/
theorem near_one_values_not_assigned :
    round ((19 : ℚ) / 20) = 1 ∧ (9 : ℚ) / 10 ≤ 19 / 20 ∧
      extractStudentSchedules [("x_7_ai_1_1A".data, 19 / 20)] [] [] = [] ∧
      extractProfSchedules [("y_p1_ai_1_1A".data, 9 / 10)] [] = some [] := by
  refine ⟨by norm_num [round_eq], by norm_num, ?_, ?_⟩
  · unfold extractStudentSchedules
    rw [List.foldl_cons, List.foldl_nil]
    unfold xStep
    rw [if_neg]
    rintro ⟨hp, hv⟩
    norm_num at hv
  · unfold extractProfSchedules
    rw [List.foldlM_cons]
    have hstep : yStep [] [] ("y_p1_ai_1_1A".data, 9 / 10) = some [] := by
      unfold yStep
      rw [if_neg]
      rintro ⟨hp, hw⟩
      exact absurd hw (lt_irrefl _)
    rw [hstep]
    rfl

/-- C3 (amended): the extractor's value test differs between the two
variable families: an x variable contributes a schedule entry iff its
solved value is EXACTLY 1 (no rounding, no 0.9 tolerance), while a y
variable contributes one iff its value is STRICTLY greater than 0.9; a
variable below its threshold leaves the schedule dict unchanged wherever
it occurs in the variable list. -/
theorem extraction_value_thresholds (courses : List CourseRec) (lects : List LecturerRec)
    (e c n b : Str) (v w : ℚ)
    (he : '_' ∉ e) (hc : '_' ∉ c) (hn : '_' ∉ n) (hb : '_' ∉ b) :
    extractStudentSchedules
        [("x".data ++ '_' :: (e ++ '_' :: ((c ++ '_' :: n) ++ '_' :: b)), v)] courses lects =
      (if v = 1 then
        [(e, [{ student := e, code := c, title := courseTitle courses c, sectionNum := n,
                blk := b, profId := profLookup lects c n }])]
       else []) ∧
      extractProfSchedules
        [("y".data ++ '_' :: (e ++ '_' :: ((c ++ '_' :: n) ++ '_' :: b)), w)] courses =
      some (if (9 : ℚ) / 10 < w then
        [(e, [{ prof := e, code := c,
                title := ((courses.find? (fun r => r.code = c)).map (·.title)).getD
                  "Unknown".data, sectionNum := n, blk := b }])]
       else []) ∧
      (∀ (sched : List (Str × List SEntry)) (name : Str) (v2 : ℚ), v2 ≠ 1 →
        xStep courses lects sched (name, v2) = sched) ∧
      (∀ (sched : List (Str × List PEntry)) (name : Str) (w2 : ℚ), ¬((9 : ℚ) / 10 < w2) →
        yStep courses sched (name, w2) = some sched) := by
  have hdecx : decodeTriple ("x".data ++ '_' :: (e ++ '_' :: ((c ++ '_' :: n) ++ '_' :: b)))
      = some (e, c ++ '_' :: n, b) := decodeTriple_name "x".data e _ b (by decide) he hb
  have hdecy : decodeTriple ("y".data ++ '_' :: (e ++ '_' :: ((c ++ '_' :: n) ++ '_' :: b)))
      = some (e, c ++ '_' :: n, b) := decodeTriple_name "y".data e _ b (by decide) he hb
  have hsp : (c ++ '_' :: n).splitOn '_' = [c, n] := by
    rw [splitOn_sep_first _ _ hc, splitOn_eq_self n hn]
  have hdl : ['_'].intercalate (([c, n]).dropLast) = c := by
    rw [show ([c, n]).dropLast = [c] from rfl, intercalate_single_chunk]
  refine ⟨?_, ?_, ?_, ?_⟩
  · unfold extractStudentSchedules
    rw [List.foldl_cons, List.foldl_nil]
    unfold xStep
    by_cases hv : v = 1
    · rw [if_pos ⟨by simp [List.isPrefixOf], hv⟩, if_pos hv]
      split
      next hnone => rw [hdecx] at hnone; cases hnone
      next student sec b2 hsome =>
        rw [hdecx] at hsome
        injection hsome with hsome
        simp only [Prod.mk.injEq] at hsome
        obtain ⟨rfl, rfl, rfl⟩ := hsome
        rw [hsp]
        rw [if_pos (by simp)]
        rw [hdl, show ([c, n]).getLastD [] = n from rfl]
        rfl
    · rw [if_neg (fun h => hv h.2), if_neg hv]
  · unfold extractProfSchedules
    rw [List.foldlM_cons]
    have hstep : yStep courses [] ("y".data ++ '_' :: (e ++ '_' :: ((c ++ '_' :: n) ++
        '_' :: b)), w) =
        some (if (9 : ℚ) / 10 < w then
          [(e, [{ prof := e, code := c,
                  title := ((courses.find? (fun r => r.code = c)).map (·.title)).getD
                    "Unknown".data,
                  sectionNum := n, blk := b }])]
         else []) := by
      unfold yStep
      by_cases hw : (9 : ℚ) / 10 < w
      · rw [if_pos ⟨by simp [List.isPrefixOf], hw⟩, if_pos hw]
        split
        next hnone => rw [hdecy] at hnone; cases hnone
        next prof sec b2 hsome =>
          rw [hdecy] at hsome
          injection hsome with hsome
          simp only [Prod.mk.injEq] at hsome
          obtain ⟨rfl, rfl, rfl⟩ := hsome
          rw [hsp]
          rfl
      · rw [if_neg (fun h => hw h.2), if_neg hw]
    rw [hstep]
    rfl
  · intro sched name v2 hne
    unfold xStep
    rw [if_neg (fun h => hne h.2)]
  · intro sched name w2 hnw
    unfold yStep
    rw [if_neg (fun h => hnw h.2)]

theorem extraction_value_thresholds_witness :
    extractStudentSchedules
        [("x".data ++ '_' :: ("7".data ++ '_' :: (("ai".data ++ '_' :: "1".data) ++ '_' ::
          "1A".data)), 1)] [] [] =
      (if (1 : ℚ) = 1 then
        [("7".data,
          [{ student := "7".data, code := "ai".data, title := courseTitle [] "ai".data,
             sectionNum := "1".data, blk := "1A".data,
             profId := profLookup [] "ai".data "1".data }])]
       else []) ∧
      extractProfSchedules
        [("y".data ++ '_' :: ("7".data ++ '_' :: (("ai".data ++ '_' :: "1".data) ++ '_' ::
          "1A".data)), 1)] [] =
      some (if (9 : ℚ) / 10 < 1 then
        [("7".data,
          [{ prof := "7".data, code := "ai".data,
             title := ((([] : List CourseRec).find? (fun r => r.code = "ai".data)).map
                 (·.title)).getD "Unknown".data,
             sectionNum := "1".data, blk := "1A".data }])]
       else []) ∧
      (∀ (sched : List (Str × List SEntry)) (name : Str) (v2 : ℚ), v2 ≠ 1 →
        xStep [] [] sched (name, v2) = sched) ∧
      (∀ (sched : List (Str × List PEntry)) (name : Str) (w2 : ℚ), ¬((9 : ℚ) / 10 < w2) →
        yStep [] sched (name, w2) = some sched) :=
  extraction_value_thresholds [] [] "7".data "ai".data "1".data "1A".data 1 1
    (by decide) (by decide) (by decide) (by decide)
